import Mathlib

/-
Verification of the cash-flow simulation engine in src/assets/js/app.js
(EDRO Ordo MVP). The JavaScript numbers are modelled as elements of a
linear ordered field; the executable instance used for concrete
evaluation is the rational numbers, and the instance used for the
top-level simulation (which takes real twelfth roots) is the reals.
NaN results of the source (empty percentile input, zero-iteration
probability, unbracketed IRR) are modelled as Option.none, and the
Infinity sentinel of discountedPayback is modelled in the extended
naturals. Pseudo-random draws are modelled as a stream of field
elements indexed by a cursor that the simulation threads through
all consuming calls, exactly as the single closure of the source
is consumed sequentially.
-/

namespace Edro

/-- Amortization methods of the source: PRICE (constant installment)
and SAC (constant amortization). -/
inductive AmortType : Type
  | PRICE : AmortType
  | SAC : AmortType
deriving DecidableEq

/-- Result of buildBaseSchedule: the monthly cash-flow vector and the
companion outstanding-balance vector. -/
structure Schedule (α : Type) : Type where
  cashflows : List α
  outstandingByMonth : List α

variable {α : Type} [LinearOrderedField α]

/-- Embeds function clamp of app.js: Math.max(a, Math.min(b, x)). -/
def clamp {β : Type} [LinearOrder β] (x a b : β) : β := max a (min b x)

/-- Helper for npv: sums cashflows[t] / (1+r)^t from position t on. -/
def npvAux (r : α) : List α → ℕ → α
  | [], _ => 0
  | c :: cs, t => c / (1 + r) ^ t + npvAux r cs (t + 1)

/-- Embeds function npv of app.js. -/
def npv (r : α) (cashflows : List α) : α := npvAux r cashflows 0

/-- Lower end of the IRR search bracket (-0.99 in the source). -/
def irrLo : α := -(99 / 100)

/-- Embeds the bracket-expansion while loop of irrMonthly: multiplies
hi by 1.5 while the products of the endpoint values stay positive,
for at most 40 tries, stopping once hi passes 1e6. -/
def irrExpandLoop (f : α → α) (fLo : α) : ℕ → α → α → α × α
  | 0, hi, fHi => (hi, fHi)
  | n + 1, hi, fHi =>
    if 0 < fLo * fHi then
      if 1000000 < hi * (3 / 2) then (hi * (3 / 2), f (hi * (3 / 2)))
      else irrExpandLoop f fLo n (hi * (3 / 2)) (f (hi * (3 / 2)))
    else (hi, fHi)

/-- The expanded bracket of irrMonthly for a given cash-flow list:
the pair of the final hi and of the npv value there. -/
def irrExpand (cashflows : List α) : α × α :=
  irrExpandLoop (fun r => npv r cashflows) (npv irrLo cashflows) 40 10 (npv 10 cashflows)

/-- Embeds the 80-iteration bisection loop of irrMonthly, with early
exit once the midpoint value is below 1e-9 in absolute value. -/
def irrBisect (f : α → α) : ℕ → α → α → α → α → α
  | 0, lo, hi, _, _ => (lo + hi) / 2
  | n + 1, lo, hi, fLo, fHi =>
    if |f ((lo + hi) / 2)| < 1 / 1000000000 then (lo + hi) / 2
    else if fLo * f ((lo + hi) / 2) ≤ 0 then
      irrBisect f n lo ((lo + hi) / 2) fLo (f ((lo + hi) / 2))
    else irrBisect f n ((lo + hi) / 2) hi (f ((lo + hi) / 2)) fHi

/-- Embeds function irrMonthly of app.js; the NaN return value of the
source (no sign change over the expanded bracket) is Option.none. -/
def irrMonthly (cashflows : List α) : Option α :=
  if 0 < npv irrLo cashflows * (irrExpand cashflows).2 then none
  else
    some (irrBisect (fun r => npv r cashflows) 80 irrLo (irrExpand cashflows).1
      (npv irrLo cashflows) (irrExpand cashflows).2)

/-- Helper for discountedPayback: walks the cash flows carrying the
month index and the running discounted sum. -/
def dpbAux (r : α) : List α → ℕ → α → ℕ∞
  | [], _, _ => ⊤
  | c :: cs, t, cum =>
    if 0 ≤ cum + c / (1 + r) ^ t then (t : ℕ∞) else dpbAux r cs (t + 1) (cum + c / (1 + r) ^ t)

/-- Embeds function discountedPayback of app.js; the Infinity sentinel
of the source is the top element of the extended naturals. -/
def discountedPayback (r : α) (cashflows : List α) : ℕ∞ := dpbAux r cashflows 0 0

/-- The constant installment of the PRICE method, as computed in both
buildBaseSchedule and buildOutstandingSeries (annuity formula, with
the zero-rate degenerate case special-cased to straight-line). -/
def pricePmt (outstanding rate : α) (n : ℕ) : α :=
  if rate = 0 then outstanding / (n : α)
  else outstanding * (rate * (1 + rate) ^ n) / ((1 + rate) ^ n - 1)

/-- The post-grace months of the PRICE branch of buildBaseSchedule:
for each month, the pair of the cash flow written and of the value of
the mutable variable outstanding after the update of that month. -/
def pricePass (rate pmt : α) : α → ℕ → List (α × α)
  | _, 0 => []
  | o, k + 1 =>
    (pmt, max 0 (o - (pmt - o * rate))) :: pricePass rate pmt (max 0 (o - (pmt - o * rate))) k

/-- The post-grace months of the SAC branch of buildBaseSchedule:
cash flow written and updated outstanding for each month. -/
def sacPass (rate amortConst : α) : α → ℕ → List (α × α)
  | _, 0 => []
  | o, k + 1 => (amortConst + o * rate, max 0 (o - amortConst)) ::
      sacPass rate amortConst (max 0 (o - amortConst)) k

/-- The post-grace balances of the PRICE branch of the standalone
buildOutstandingSeries pass of app.js. -/
def priceBalances (rate pmt : α) : α → ℕ → List α
  | _, 0 => []
  | o, k + 1 => max 0 (o - (pmt - o * rate)) :: priceBalances rate pmt (max 0 (o - (pmt - o * rate))) k

/-- The post-grace balances of the SAC branch of the standalone
buildOutstandingSeries pass of app.js. -/
def sacBalances (amortConst : α) : α → ℕ → List α
  | _, 0 => []
  | o, k + 1 => max 0 (o - amortConst) :: sacBalances amortConst (max 0 (o - amortConst)) k

/-- Embeds function buildOutstandingSeries of app.js: balance series
with index 0 equal to the principal, the grace months unchanged, and
the post-grace months following the chosen amortization method. -/
def buildOutstandingSeries (principal : α) (N g : ℕ) (rate : α) (ty : AmortType) : List α :=
  if N - g = 0 then principal :: List.replicate g principal
  else
    principal :: List.replicate g principal ++
      (match ty with
       | AmortType.PRICE => priceBalances rate (pricePmt principal rate (N - g)) principal (N - g)
       | AmortType.SAC => sacBalances (principal / ((N - g : ℕ) : α)) principal (N - g))

/-- Embeds function buildBaseSchedule of app.js: clamps the grace
months into the term, emits the disbursement, the interest-only grace
flows and the amortization flows, and pairs the cash flows with the
independently rebuilt outstanding series. -/
def buildBaseSchedule (principal : α) (termMonths : ℕ) (rateMonthly : α) (ty : AmortType)
    (graceMonths : ℤ) : Schedule α :=
  if termMonths - (clamp graceMonths 0 (termMonths : ℤ)).toNat = 0 then
    Schedule.mk
      (-principal :: List.replicate (clamp graceMonths 0 (termMonths : ℤ)).toNat
        (principal * rateMonthly))
      (buildOutstandingSeries principal termMonths
        (clamp graceMonths 0 (termMonths : ℤ)).toNat rateMonthly ty)
  else
    Schedule.mk
      (-principal :: List.replicate (clamp graceMonths 0 (termMonths : ℤ)).toNat
          (principal * rateMonthly) ++
        (match ty with
         | AmortType.PRICE =>
           (pricePass rateMonthly
             (pricePmt principal rateMonthly
               (termMonths - (clamp graceMonths 0 (termMonths : ℤ)).toNat))
             principal (termMonths - (clamp graceMonths 0 (termMonths : ℤ)).toNat)).map Prod.fst
         | AmortType.SAC =>
           (sacPass rateMonthly
             (principal / ((termMonths - (clamp graceMonths 0 (termMonths : ℤ)).toNat : ℕ) : α))
             principal (termMonths - (clamp graceMonths 0 (termMonths : ℤ)).toNat)).map Prod.fst))
      (buildOutstandingSeries principal termMonths
        (clamp graceMonths 0 (termMonths : ℤ)).toNat rateMonthly ty)

/-- The month-by-month value of the mutable variable outstanding of
the cash-flow pass of buildBaseSchedule: principal at month 0, frozen
during grace, then updated by the chosen amortization branch. -/
def buildBaseScheduleBalances (principal : α) (termMonths : ℕ) (rateMonthly : α) (ty : AmortType)
    (graceMonths : ℤ) : List α :=
  if termMonths - (clamp graceMonths 0 (termMonths : ℤ)).toNat = 0 then
    principal :: List.replicate (clamp graceMonths 0 (termMonths : ℤ)).toNat principal
  else
    principal :: List.replicate (clamp graceMonths 0 (termMonths : ℤ)).toNat principal ++
      (match ty with
       | AmortType.PRICE =>
         (pricePass rateMonthly
           (pricePmt principal rateMonthly
             (termMonths - (clamp graceMonths 0 (termMonths : ℤ)).toNat))
           principal (termMonths - (clamp graceMonths 0 (termMonths : ℤ)).toNat)).map Prod.snd
       | AmortType.SAC =>
         (sacPass rateMonthly
           (principal / ((termMonths - (clamp graceMonths 0 (termMonths : ℤ)).toNat : ℕ) : α))
           principal (termMonths - (clamp graceMonths 0 (termMonths : ℤ)).toNat)).map Prod.snd)

/-- The first imul round of the mulberry32 mixing step of app.js:
Math.imul(t XOR (t >>> 15), 1 OR t), as an unsigned 32-bit pattern. -/
def mulberryRound1 (t : ℕ) : ℕ := ((t ^^^ (t >>> 15)) * (1 ||| t)) % 4294967296

/-- The second round of the mulberry32 mixing step of app.js:
r XOR (r + Math.imul(r XOR (r >>> 7), 61 OR r)), on the unsigned
32-bit pattern r produced by the first round. -/
def mulberryRound2 (r : ℕ) : ℕ :=
  r ^^^ ((r + ((r ^^^ (r >>> 7)) * (61 ||| r)) % 4294967296) % 4294967296)

/-- The full mulberry32 mixing step of app.js on the advanced state:
both rounds followed by the final xor-shift by 14; the result is the
unsigned 32-bit value that the source divides by 2^32. -/
def mulberryMix (t : ℕ) : ℕ :=
  mulberryRound2 (mulberryRound1 t) ^^^ (mulberryRound2 (mulberryRound1 t) >>> 14)

/-- The internal 32-bit state of mulberry32 when it produces draw
number n (counting from 0): the seed taken modulo 2^32 advanced n+1
times by the additive constant 0x6D2B79F5. -/
def mulberryState (seed n : ℕ) : ℕ := (seed % 4294967296 + (n + 1) * 0x6D2B79F5) % 4294967296

/-- Draw number n of the mulberry32 stream for a given seed, as a
field element in the unit interval (the source divides by 2^32). -/
def mulberryDraw (seed n : ℕ) : α := (mulberryMix (mulberryState seed n) : α) / 4294967296

/-- JavaScript array indexing sortedArr[i] for a possibly fractional
or out-of-range index already rounded to an integer: undefined (hence
a NaN result downstream) is Option.none. -/
def jsGet (l : List α) (i : ℤ) : Option α := if i < 0 then none else l.get? i.toNat

/-- Embeds function percentile of app.js over a FloorRing field; the
NaN results of the source (empty input, out-of-range index) are
Option.none. -/
def percentile [FloorRing α] (sortedArr : List α) (p : α) : Option α :=
  if sortedArr.length = 0 then none
  else
    if ⌊((sortedArr.length : α) - 1) * p⌋ = ⌈((sortedArr.length : α) - 1) * p⌉ then
      jsGet sortedArr ⌊((sortedArr.length : α) - 1) * p⌋
    else
      match jsGet sortedArr ⌊((sortedArr.length : α) - 1) * p⌋,
          jsGet sortedArr ⌈((sortedArr.length : α) - 1) * p⌉ with
      | some a, some b =>
        some (a * (1 - (((sortedArr.length : α) - 1) * p - (⌊((sortedArr.length : α) - 1) * p⌋ : α))) +
          b * (((sortedArr.length : α) - 1) * p - (⌊((sortedArr.length : α) - 1) * p⌋ : α)))
      | _, _ => none

/-- Modelled from the specification wording for the percentile
computation: the linear interpolation between order statistics at the
fractional index (n - 1) * p, taking the element itself when the
floor and ceiling ranks coincide and the weighted average of the two
neighbouring order statistics otherwise. -/
def interpOrderStat [FloorRing α] (l : List α) (p : α) : α :=
  if ⌊((l.length : α) - 1) * p⌋ = ⌈((l.length : α) - 1) * p⌉ then
    l.getD (⌊((l.length : α) - 1) * p⌋).toNat 0
  else
    l.getD (⌊((l.length : α) - 1) * p⌋).toNat 0 *
        (1 - (((l.length : α) - 1) * p - (⌊((l.length : α) - 1) * p⌋ : α))) +
      l.getD (⌈((l.length : α) - 1) * p⌉).toNat 0 *
        (((l.length : α) - 1) * p - (⌊((l.length : α) - 1) * p⌋ : α))

/-- Embeds the month loop of applyDelay: t is the month under scan,
fuel is the number of months still to scan, k is the cursor into the
random stream, cf is the current partially updated copy. A month with
a nonpositive value is skipped without a draw; a month with a
positive value consumes one draw and, when the draw is below the
delay probability, moves the whole amount delayMonths forward,
dropping it when the target passes the horizon N. -/
def applyDelayLoop (dp : α) (dm : ℕ) (rng : ℕ → α) (N : ℕ) :
    ℕ → ℕ → ℕ → List α → List α × ℕ
  | 0, _, k, cf => (cf, k)
  | fuel + 1, t, k, cf =>
    if cf.getD t 0 ≤ 0 then applyDelayLoop dp dm rng N fuel (t + 1) k cf
    else
      if rng k < dp then
        if t + dm ≤ N then
          applyDelayLoop dp dm rng N fuel (t + 1) (k + 1)
            (((cf.set t 0).set (t + dm) ((cf.set t 0).getD (t + dm) 0 + cf.getD t 0)))
        else applyDelayLoop dp dm rng N fuel (t + 1) (k + 1) (cf.set t 0)
      else applyDelayLoop dp dm rng N fuel (t + 1) (k + 1) cf

/-- Embeds function applyDelay of app.js, paired with the final
random-stream cursor; when the delay length or the delay probability
is nonpositive the schedule and the cursor are returned untouched. -/
def applyDelay (cashflows : List α) (dp : α) (dm : ℕ) (rng : ℕ → α) (k : ℕ) : List α × ℕ :=
  if dm ≤ 0 ∨ dp ≤ 0 then (cashflows, k)
  else applyDelayLoop dp dm rng (cashflows.length - 1) (cashflows.length - 1) 1 k cashflows

/-- Counts, along the very same scan as applyDelayLoop, the months
whose value in the partially updated copy is strictly positive at the
moment the scan reaches them. -/
def applyDelayScanCount (dp : α) (dm : ℕ) (rng : ℕ → α) (N : ℕ) :
    ℕ → ℕ → ℕ → List α → ℕ
  | 0, _, _, _ => 0
  | fuel + 1, t, k, cf =>
    if cf.getD t 0 ≤ 0 then applyDelayScanCount dp dm rng N fuel (t + 1) k cf
    else
      if rng k < dp then
        if t + dm ≤ N then
          1 + applyDelayScanCount dp dm rng N fuel (t + 1) (k + 1)
            (((cf.set t 0).set (t + dm) ((cf.set t 0).getD (t + dm) 0 + cf.getD t 0)))
        else 1 + applyDelayScanCount dp dm rng N fuel (t + 1) (k + 1) (cf.set t 0)
      else 1 + applyDelayScanCount dp dm rng N fuel (t + 1) (k + 1) cf

/-- Embeds the month loop of applyDefault over the months 1..N of the
schedule (the list argument is the suffix of the copied schedule from
month t on): each month consumes one draw; the first draw below the
monthly hazard replaces that month by the recovery payment
(1 - lgd) * (outstandingByMonth[t-1] ?? outstandingByMonth[t] ?? 0)
and zeroes every later month. -/
def applyDefaultAux (out : List α) (pdM lgd : α) (rng : ℕ → α) :
    List α → ℕ → ℕ → List α × ℕ
  | [], _, k => ([], k)
  | c :: rest, t, k =>
    if rng k < pdM then
      ((1 - lgd) * ((out.get? (t - 1)).getD ((out.get? t).getD 0)) :: rest.map (fun _ => 0), k + 1)
    else
      ((c :: (applyDefaultAux out pdM lgd rng rest (t + 1) (k + 1)).1),
        (applyDefaultAux out pdM lgd rng rest (t + 1) (k + 1)).2)

/-- Embeds function applyDefault of app.js, paired with the final
random-stream cursor. -/
def applyDefault (cashflows out : List α) (pdM lgd : α) (rng : ℕ → α) (k : ℕ) : List α × ℕ :=
  match cashflows with
  | [] => ([], k)
  | c0 :: rest =>
    ((c0 :: (applyDefaultAux out pdM lgd rng rest 1 k).1),
      (applyDefaultAux out pdM lgd rng rest 1 k).2)

/-- The parameter record consumed by simulateCreditDecision. The seed
is the optional raw seed field (absent models null or undefined). -/
structure Params (α : Type) : Type where
  principal : α
  termMonths : ℕ
  rateAnnual : α
  amortType : AmortType
  graceMonths : ℤ
  discountAnnual : α
  pdAnnual : α
  lgdPct : α
  delayProbPct : α
  delayMonths : ℕ
  iterations : ℕ
  seed : Option String

/-- The result record of simulateCreditDecision. NaN-valued fields of
the source (undefined IRR, zero-iteration statistics) are
Option.none, and the never-recovers payback is the top element. -/
structure SimResult (α : Type) : Type where
  baseNpv : α
  baseIrrAnnual : Option α
  baseDpbMonths : ℕ∞
  pNeg : Option α
  p5 : Option α
  p50 : Option α
  p95 : Option α
  npvs : List α

/-- Models the trim method applied to the seed text in app.js:
removes leading and trailing whitespace. -/
def jsTrim (s : String) : String :=
  String.mk (((s.data.dropWhile Char.isWhitespace).reverse.dropWhile Char.isWhitespace).reverse)

/-- Models the seed coercion Number(seed) || 0 of app.js for seeds
given as decimal natural literals; any other text degrades to 0 as in
the source (non-numeric text gives NaN, and NaN || 0 is 0). -/
def parseSeedNumber (s : String) : ℕ := ((jsTrim s).toNat?).getD 0

/-- The random stream chosen by simulateCreditDecision: the mulberry32
stream for the parsed seed when the seed is present and nonempty
after trimming, and the ambient nondeterministic stream (Math.random)
otherwise. -/
def seededRng (seed : Option String) (extRng : ℕ → α) : ℕ → α :=
  match seed with
  | some s => if jsTrim s ≠ "" then fun n => mulberryDraw (parseSeedNumber s) n else extRng
  | none => extRng

/-- The Monte Carlo iteration loop of simulateCreditDecision: each
iteration applies the delay pass then the default pass to the base
schedule, both consuming the shared stream at the threaded cursor,
and records the npv of the perturbed schedule in generation order. -/
def mcLoop (discM pdM lgd delayProb : α) (dm : ℕ) (baseCF out : List α) (rng : ℕ → α) :
    ℕ → ℕ → List α × ℕ
  | 0, k => ([], k)
  | n + 1, k =>
    ((npv discM (applyDefault (applyDelay baseCF delayProb dm rng k).1 out pdM lgd rng
          (applyDelay baseCF delayProb dm rng k).2).1 ::
        (mcLoop discM pdM lgd delayProb dm baseCF out rng n
          (applyDefault (applyDelay baseCF delayProb dm rng k).1 out pdM lgd rng
            (applyDelay baseCF delayProb dm rng k).2).2).1),
      (mcLoop discM pdM lgd delayProb dm baseCF out rng n
        (applyDefault (applyDelay baseCF delayProb dm rng k).1 out pdM lgd rng
          (applyDelay baseCF delayProb dm rng k).2).2).2)

/-- The base schedule built by simulateCreditDecision: the loan terms
of the parameter record with the annual rate converted to a monthly
rate by root12 (1 + pct / 100) - 1. -/
def baseScheduleOf (root12 : α → α) (p : Params α) : Schedule α :=
  buildBaseSchedule p.principal p.termMonths (root12 (1 + p.rateAnnual / 100) - 1)
    p.amortType p.graceMonths

/-- The monthly discount rate used by simulateCreditDecision. -/
def discMonthlyOf (root12 : α → α) (p : Params α) : α := root12 (1 + p.discountAnnual / 100) - 1

/-- The monthly default hazard used by simulateCreditDecision:
1 - (1 - pdA) ^ (1/12) with pdA the annual probability clamped into
the unit interval. -/
def pdMonthlyOf (root12 : α → α) (p : Params α) : α :=
  1 - root12 (1 - clamp (p.pdAnnual / 100) 0 1)

/-- The NPV sample of the Monte Carlo pass of simulateCreditDecision,
in generation order. -/
def mcSample (root12 : α → α) (p : Params α) (extRng : ℕ → α) : List α :=
  (mcLoop (discMonthlyOf root12 p) (pdMonthlyOf root12 p) (clamp (p.lgdPct / 100) 0 1)
      (clamp (p.delayProbPct / 100) 0 1) p.delayMonths (baseScheduleOf root12 p).cashflows
      (baseScheduleOf root12 p).outstandingByMonth (seededRng p.seed extRng) p.iterations 0).1

/-- Embeds function simulateCreditDecision of app.js, generically over
the twelfth-root map root12 used by the annual-to-monthly rate and
hazard conversions (the source computes it with Math.pow(x, 1/12)).
The division neg / iterations is NaN in the source when iterations is
zero, modelled as Option.none. -/
def simulateGen [FloorRing α] (root12 : α → α) (p : Params α) (extRng : ℕ → α) : SimResult α :=
  SimResult.mk
    (npv (discMonthlyOf root12 p) (baseScheduleOf root12 p).cashflows)
    ((irrMonthly (baseScheduleOf root12 p).cashflows).map (fun r => (1 + r) ^ 12 - 1))
    (discountedPayback (discMonthlyOf root12 p) (baseScheduleOf root12 p).cashflows)
    (if p.iterations = 0 then none
     else
       some ((((mcSample root12 p extRng).countP fun v => decide (v < 0)) : α) /
         (p.iterations : α)))
    (percentile ((mcSample root12 p extRng).insertionSort (· ≤ ·)) (5 / 100))
    (percentile ((mcSample root12 p extRng).insertionSort (· ≤ ·)) (50 / 100))
    (percentile ((mcSample root12 p extRng).insertionSort (· ≤ ·)) (95 / 100))
    (mcSample root12 p extRng)

/-- The simulateCreditDecision of app.js over the reals, where the
twelfth root is the real power with exponent 1/12. -/
noncomputable def simulateCreditDecision (p : Params ℝ) (extRng : ℕ → ℝ) : SimResult ℝ :=
  simulateGen (fun x => x ^ ((1 : ℝ) / 12)) p extRng

lemma pricePass_length (rate pmt : α) : ∀ (k : ℕ) (o : α), (pricePass rate pmt o k).length = k := by
  intro k
  induction k with
  | zero => intro o; rfl
  | succ n ih => intro o; simp [pricePass, ih]

lemma sacPass_length (rate ac : α) : ∀ (k : ℕ) (o : α), (sacPass rate ac o k).length = k := by
  intro k
  induction k with
  | zero => intro o; rfl
  | succ n ih => intro o; simp [sacPass, ih]

lemma priceBalances_length (rate pmt : α) :
    ∀ (k : ℕ) (o : α), (priceBalances rate pmt o k).length = k := by
  intro k
  induction k with
  | zero => intro o; rfl
  | succ n ih => intro o; simp [priceBalances, ih]

lemma sacBalances_length (ac : α) : ∀ (k : ℕ) (o : α), (sacBalances ac o k).length = k := by
  intro k
  induction k with
  | zero => intro o; rfl
  | succ n ih => intro o; simp [sacBalances, ih]

lemma pricePass_map_snd (rate pmt : α) :
    ∀ (k : ℕ) (o : α), (pricePass rate pmt o k).map Prod.snd = priceBalances rate pmt o k := by
  intro k
  induction k with
  | zero => intro o; rfl
  | succ n ih => intro o; simp [pricePass, priceBalances, ih]

lemma sacPass_map_snd (rate ac : α) :
    ∀ (k : ℕ) (o : α), (sacPass rate ac o k).map Prod.snd = sacBalances ac o k := by
  intro k
  induction k with
  | zero => intro o; rfl
  | succ n ih => intro o; simp [sacPass, sacBalances, ih]

lemma clamp_nonneg_int (x : ℤ) (b : ℤ) : 0 ≤ clamp x 0 b := le_max_left 0 (min b x)

lemma clamp_le_int (x : ℤ) (b : ℤ) (hb : 0 ≤ b) : clamp x 0 b ≤ b :=
  max_le hb (min_le_left b x)

lemma clampedGrace_le (gm : ℤ) (N : ℕ) : (clamp gm 0 (N : ℤ)).toNat ≤ N := by
  have h := clamp_le_int gm (N : ℤ) (by exact_mod_cast Nat.zero_le N)
  omega

lemma buildOutstandingSeries_length (principal : α) (N g : ℕ) (rate : α) (ty : AmortType)
    (hg : g ≤ N) : (buildOutstandingSeries principal N g rate ty).length = N + 1 := by
  unfold buildOutstandingSeries
  by_cases h : N - g = 0
  · have hgN : g = N := by omega
    simp [h, hgN]
  · cases ty <;>
      simp [h, priceBalances_length, sacBalances_length] <;> omega

/-- Claim C9: for every grace input, including out-of-contract values,
buildBaseSchedule clamps grace into the interval from 0 to the term,
so with a term of at least one month the produced cash-flow vector
and outstanding series both have length termMonths + 1, the cash flow
of month 0 is the negated principal, and entry 0 of the series is the
principal. -/
theorem C9_buildBaseSchedule_bounds (principal rate : ℚ) (ty : AmortType) (gm : ℤ) (N : ℕ)
    (hN : 1 ≤ N) :
    (buildBaseSchedule principal N rate ty gm).cashflows.length = N + 1 ∧
    (buildBaseSchedule principal N rate ty gm).outstandingByMonth.length = N + 1 ∧
    (buildBaseSchedule principal N rate ty gm).cashflows.getD 0 0 = -principal ∧
    (buildBaseSchedule principal N rate ty gm).outstandingByMonth.getD 0 0 = principal ∧
    0 ≤ clamp gm 0 (N : ℤ) ∧ clamp gm 0 (N : ℤ) ≤ (N : ℤ) := by
  have hle := clampedGrace_le gm N
  refine ⟨?_, ?_, ?_, ?_, clamp_nonneg_int gm (N : ℤ), ?_⟩
  · unfold buildBaseSchedule
    by_cases h : N - (clamp gm 0 (N : ℤ)).toNat = 0
    · have : (clamp gm 0 (N : ℤ)).toNat = N := by omega
      simp [h, this]
    · cases ty <;> simp [h, pricePass_length, sacPass_length] <;> omega
  · unfold buildBaseSchedule
    by_cases h : N - (clamp gm 0 (N : ℤ)).toNat = 0
    · simp only [h, if_pos]
      exact buildOutstandingSeries_length principal N _ rate ty hle
    · simp only [h, if_neg, ite_false]
      exact buildOutstandingSeries_length principal N _ rate ty hle
  · unfold buildBaseSchedule
    by_cases h : N - (clamp gm 0 (N : ℤ)).toNat = 0 <;> simp [h]
  · unfold buildBaseSchedule buildOutstandingSeries
    by_cases h : N - (clamp gm 0 (N : ℤ)).toNat = 0 <;> simp [h]
  · exact clamp_le_int gm (N : ℤ) (by exact_mod_cast Nat.zero_le N)

/-- Witness for C9 at a concrete out-of-contract grace input. -/
theorem C9_buildBaseSchedule_bounds_witness :
    (buildBaseSchedule (100000 : ℚ) 12 (1 / 100) AmortType.PRICE 99).cashflows.length = 13 ∧
    (buildBaseSchedule (100000 : ℚ) 12 (1 / 100) AmortType.PRICE 99).outstandingByMonth.length =
      13 ∧
    (buildBaseSchedule (100000 : ℚ) 12 (1 / 100) AmortType.PRICE 99).cashflows.getD 0 0 =
      -100000 ∧
    (buildBaseSchedule (100000 : ℚ) 12 (1 / 100)
        AmortType.PRICE 99).outstandingByMonth.getD 0 0 = 100000 ∧
    0 ≤ clamp (99 : ℤ) 0 (12 : ℤ) ∧ clamp (99 : ℤ) 0 (12 : ℤ) ≤ (12 : ℤ) :=
  C9_buildBaseSchedule_bounds 100000 (1 / 100) AmortType.PRICE 99 12 (by decide)

/-- Claim C8: the outstanding balances tracked by the mutable variable
of the cash-flow pass of buildBaseSchedule agree month by month with
the series returned by the standalone buildOutstandingSeries
reconstruction, for every input. -/
theorem C8_balances_agree (principal rate : ℚ) (ty : AmortType) (gm : ℤ) (N : ℕ)
    (hN : 1 ≤ N) :
    buildBaseScheduleBalances principal N rate ty gm =
      (buildBaseSchedule principal N rate ty gm).outstandingByMonth := by
  unfold buildBaseScheduleBalances buildBaseSchedule buildOutstandingSeries
  by_cases h : N - (clamp gm 0 (N : ℤ)).toNat = 0
  · simp [h]
  · cases ty <;> simp [h, pricePass_map_snd, sacPass_map_snd]

/-- Witness for C8 at concrete loan terms. -/
theorem C8_balances_agree_witness :
    buildBaseScheduleBalances (100000 : ℚ) 12 (1 / 100) AmortType.SAC 3 =
      (buildBaseSchedule (100000 : ℚ) 12 (1 / 100) AmortType.SAC 3).outstandingByMonth :=
  C8_balances_agree 100000 (1 / 100) AmortType.SAC 3 12 (by decide)

lemma applyDelayLoop_cursor (dp : ℚ) (dm : ℕ) (rng : ℕ → ℚ) (N : ℕ) :
    ∀ (fuel t k : ℕ) (cf : List ℚ),
      (applyDelayLoop dp dm rng N fuel t k cf).2 =
        k + applyDelayScanCount dp dm rng N fuel t k cf := by
  intro fuel
  induction fuel with
  | zero => intro t k cf; rfl
  | succ n ih =>
    intro t k cf
    by_cases h0 : cf.getD t 0 ≤ 0
    · simp only [applyDelayLoop, applyDelayScanCount, if_pos h0]
      exact ih (t + 1) k cf
    · by_cases h1 : rng k < dp
      · by_cases h2 : t + dm ≤ N
        · simp only [applyDelayLoop, applyDelayScanCount, if_neg h0, if_pos h1, if_pos h2]
          rw [ih]; omega
        · simp only [applyDelayLoop, applyDelayScanCount, if_neg h0, if_pos h1, if_neg h2]
          rw [ih]; omega
      · simp only [applyDelayLoop, applyDelayScanCount, if_neg h0, if_neg h1]
        rw [ih]; omega

/-- Claim C10: applyDelay scans the copy it is updating, so a moved
installment is examined again at its target month. The draws consumed
equal the number of months whose value in the partially updated copy
is strictly positive when the scan reaches them (first conjunct, for
every input). On the schedule with a single positive installment of 5
at month 1 and a one-month delay, a stream of always-triggering draws
moves the installment three times and finally drops it past the
horizon, consuming three draws even though the original schedule has
only one positive month; a stream triggering only on its first draw
consumes two draws and leaves the installment at month 2, and a
stream triggering on its first two draws consumes three draws and
leaves the installment at month 3, shifted by twice the delay length,
so the number of draws consumed depends on earlier delay outcomes. -/
theorem C10_applyDelay_reexamination :
    (∀ (dp : ℚ) (dm : ℕ) (rng : ℕ → ℚ) (N fuel t k : ℕ) (cf : List ℚ),
        (applyDelayLoop dp dm rng N fuel t k cf).2 =
          k + applyDelayScanCount dp dm rng N fuel t k cf) ∧
    applyDelay [(-1 : ℚ), 5, 0, 0] (1 / 2) 1 (fun _ => 0) 0 = ([-1, 0, 0, 0], 3) ∧
    applyDelay [(-1 : ℚ), 5, 0, 0] (1 / 2) 1 (fun n => if n = 0 then 0 else 1) 0 =
      ([-1, 0, 5, 0], 2) ∧
    applyDelay [(-1 : ℚ), 5, 0, 0] (1 / 2) 1 (fun n => if n ≤ 1 then 0 else 1) 0 =
      ([-1, 0, 0, 5], 3) ∧
    (([(-1 : ℚ), 5, 0, 0].drop 1).countP fun v => decide (0 < v)) = 1 := by
  refine ⟨fun dp dm rng N fuel t k cf => applyDelayLoop_cursor dp dm rng N fuel t k cf,
    by norm_num [applyDelay, applyDelayLoop], by norm_num [applyDelay, applyDelayLoop],
    by norm_num [applyDelay, applyDelayLoop], by norm_num [List.countP, List.countP.go]⟩

lemma jsGet_eq_some (l : List ℚ) (i : ℤ) (h0 : 0 ≤ i) (hlt : i.toNat < l.length) :
    jsGet l i = some (l.getD i.toNat 0) := by
  unfold jsGet
  rw [if_neg (not_lt.2 h0), List.getD_eq_getElem?_getD]
  cases hg : l[i.toNat]? with
  | none => exact absurd (by simpa using hg) (by omega)
  | some a => simp [hg, List.get?_eq_getElem?]

/-- Claim C5: on a nonempty sorted list and a probability within the
unit interval, percentile returns (without undefined lookups) the
linear interpolation between the order statistics at the fractional
index (n - 1) * p, the element itself when the floor and ceiling
ranks coincide and the weighted average of the two neighbours
otherwise; on the list 10, 20, 30, 40 it yields 25 at p = 1/2, 10 at
p = 0 and 40 at p = 1. -/
theorem C5_percentile_interpolation :
    (∀ (l : List ℚ) (p : ℚ), l ≠ [] → l.Sorted (· ≤ ·) → 0 ≤ p → p ≤ 1 →
      percentile l p = some (interpOrderStat l p)) ∧
    percentile [(10 : ℚ), 20, 30, 40] (1 / 2) = some 25 ∧
    percentile [(10 : ℚ), 20, 30, 40] 0 = some 10 ∧
    percentile [(10 : ℚ), 20, 30, 40] 1 = some 40 := by
  refine ⟨?_, ?_, ?_, ?_⟩
  · intro l p hne hsort hp0 hp1
    have hlen : 1 ≤ l.length := List.length_pos.2 hne
    have hlenq : (1 : ℚ) ≤ (l.length : ℚ) := by exact_mod_cast hlen
    have hidx0 : 0 ≤ ((l.length : ℚ) - 1) * p := mul_nonneg (by linarith) hp0
    have hidxle : ((l.length : ℚ) - 1) * p ≤ (l.length : ℚ) - 1 :=
      mul_le_of_le_one_right (by linarith) hp1
    have hfl0 : 0 ≤ ⌊((l.length : ℚ) - 1) * p⌋ := Int.floor_nonneg.2 hidx0
    have hcl : ⌈((l.length : ℚ) - 1) * p⌉ ≤ (l.length : ℤ) - 1 := by
      apply Int.ceil_le.2
      push_cast
      linarith
    have hfc : ⌊((l.length : ℚ) - 1) * p⌋ ≤ ⌈((l.length : ℚ) - 1) * p⌉ :=
      Int.floor_le_ceil _
    have hflt : (⌊((l.length : ℚ) - 1) * p⌋).toNat < l.length := by omega
    have hclt : (⌈((l.length : ℚ) - 1) * p⌉).toNat < l.length := by omega
    have hcl0 : 0 ≤ ⌈((l.length : ℚ) - 1) * p⌉ := le_trans hfl0 hfc
    unfold percentile interpOrderStat
    rw [if_neg (by omega)]
    by_cases heq : ⌊((l.length : ℚ) - 1) * p⌋ = ⌈((l.length : ℚ) - 1) * p⌉
    · rw [if_pos heq, if_pos heq, jsGet_eq_some l _ hfl0 hflt]
    · rw [if_neg heq, if_neg heq, jsGet_eq_some l _ hfl0 hflt, jsGet_eq_some l _ hcl0 hclt]
  · have hc : ⌈(3 / 2 : ℚ)⌉ = 2 := by
      rw [Int.ceil_eq_iff] <;> norm_num
    have ht : Int.toNat 2 = 2 := rfl
    norm_num [percentile, jsGet, hc, ht]
  · norm_num [percentile, jsGet]
  · have ht : Int.toNat 3 = 3 := rfl
    norm_num [percentile, jsGet, ht]

/-- Witness for C5 instantiating the universally quantified conjunct
at the concrete sorted list 10, 20, 30, 40 and p = 1/2. -/
theorem C5_percentile_interpolation_witness :
    percentile [(10 : ℚ), 20, 30, 40] (1 / 2) =
      some (interpOrderStat [(10 : ℚ), 20, 30, 40] (1 / 2)) :=
  C5_percentile_interpolation.1 [(10 : ℚ), 20, 30, 40] (1 / 2) (by simp)
    (by norm_num [List.Sorted]) (by norm_num) (by norm_num)

lemma applyDefaultAux_no_trigger (out : List α) (pdM lgd : α) (rng : ℕ → α) :
    ∀ (l : List α) (t k : ℕ), (∀ i, i < l.length → ¬ rng (k + i) < pdM) →
      applyDefaultAux out pdM lgd rng l t k = (l, k + l.length) := by
  intro l
  induction l with
  | nil => intro t k _; simp [applyDefaultAux]
  | cons c rest ih =>
    intro t k hno
    have h0 : ¬ rng k < pdM := by
      have := hno 0 (by simp)
      simpa using this
    have hrec := ih (t + 1) (k + 1) (fun i hi => by
      have := hno (i + 1) (by simpa using Nat.succ_lt_succ hi)
      simpa [Nat.add_assoc, Nat.add_comm 1 i] using this)
    simp only [applyDefaultAux, if_neg h0, hrec]
    simp [Nat.add_comm, Nat.add_assoc, Nat.add_left_comm]

lemma applyDefaultAux_trigger (out : List ℚ) (pdM lgd : ℚ) (rng : ℕ → ℚ) :
    ∀ (l : List ℚ) (t k j : ℕ), j < l.length → rng (k + j) < pdM →
      (∀ i, i < j → ¬ rng (k + i) < pdM) →
      applyDefaultAux out pdM lgd rng l t k =
        (l.take j ++ (1 - lgd) * ((out.get? (t + j - 1)).getD ((out.get? (t + j)).getD 0)) ::
          List.replicate (l.length - j - 1) 0, k + j + 1) := by
  intro l
  induction l with
  | nil => intro t k j hj; exact absurd hj (by simp)
  | cons c rest ih =>
    intro t k j hj htrig hmin
    cases j with
    | zero =>
      have h0 : rng k < pdM := by simpa using htrig
      simp only [applyDefaultAux, if_pos h0]
      simp [List.map_const]
    | succ j =>
      have h0 : ¬ rng k < pdM := by
        have := hmin 0 (Nat.succ_pos j)
        simpa using this
      have hrec := ih (t + 1) (k + 1) j (by simpa using Nat.lt_of_succ_lt_succ hj)
        (by
          have : k + (j + 1) = k + 1 + j := by omega
          rwa [this] at htrig)
        (fun i hi => by
          have := hmin (i + 1) (Nat.succ_lt_succ hi)
          have heq : k + (i + 1) = k + 1 + i := by omega
          rwa [heq] at this)
      simp only [applyDefaultAux, if_neg h0, hrec]
      refine Prod.ext ?_ (by simp; omega)
      simp only [List.take_succ_cons, List.cons_append, List.length_cons]
      have h1 : t + 1 + j - 1 = t + (j + 1) - 1 := by omega
      have h2 : t + 1 + j = t + (j + 1) := by omega
      have h3 : rest.length - j - 1 = rest.length + 1 - (j + 1) - 1 := by omega
      rw [h1, h2, h3]

/-- Claim C1 counterexample: a two-month SAC loan of principal 100 at
zero rate has outstanding series 100, 50, 0; with loss given default
 0 and a stream whose first draw triggers at month 1, applyDefault
writes 100 at month 1, which is (1 - lgd) times entry 0 of the
series, not (1 - lgd) times entry 1 (the value 50) as the claim
requires for the balance of the triggering month. -/
theorem C1_applyDefault_counterexample :
    buildOutstandingSeries (100 : ℚ) 2 0 0 AmortType.SAC = [100, 50, 0] ∧
    (applyDefault [(-100 : ℚ), 60, 60] [100, 50, 0] (1 / 2) 0 (fun _ => 0) 0).1 =
      [-100, 100, 0] ∧
    (1 - (0 : ℚ)) * ([100, (50 : ℚ), 0].getD 1 0) = 50 ∧ (100 : ℚ) ≠ 50 := by
  refine ⟨by norm_num [buildOutstandingSeries, sacBalances], ?_, by norm_num, by norm_num⟩
  norm_num [applyDefault, applyDefaultAux]

/-- Claim C1 amended: for every schedule, outstanding series of the
same length, hazard in the unit interval and loss fraction in the
unit interval, applyDefault returns the schedule unchanged when no
draw for months 1..N falls below the hazard; and when the first such
draw is the one for month j + 1, the result keeps months up to j
unchanged, replaces month j + 1 by (1 - lgd) times entry j of the
outstanding series (the balance before the amortization of the
defaulting month), and zeroes every later month, so at most one
default is applied per path. -/
theorem C1_applyDefault_amended (cfs out : List ℚ) (haz lgd : ℚ) (rng : ℕ → ℚ)
    (h0 : 0 ≤ haz) (h1 : haz < 1) (hl0 : 0 ≤ lgd) (hl1 : lgd ≤ 1)
    (hlen : out.length = cfs.length) :
    ((∀ i, i + 1 < cfs.length → ¬ rng i < haz) → (applyDefault cfs out haz lgd rng 0).1 = cfs) ∧
    (∀ j, j + 1 < cfs.length → rng j < haz → (∀ i, i < j → ¬ rng i < haz) →
      (applyDefault cfs out haz lgd rng 0).1 =
        cfs.take (j + 1) ++
          (1 - lgd) * out.getD j 0 :: List.replicate (cfs.length - j - 2) 0) := by
  constructor
  · intro hno
    cases cfs with
    | nil => rfl
    | cons c0 rest =>
      have := applyDefaultAux_no_trigger out haz lgd rng rest 1 0
        (fun i hi => by simpa using hno i (by simpa using Nat.succ_lt_succ hi))
      simp [applyDefault, this]
  · intro j hj htrig hmin
    cases cfs with
    | nil => exact absurd hj (by simp)
    | cons c0 rest =>
      have hjr : j < rest.length := by
        have := hj
        simp only [List.length_cons] at this
        omega
      have hget : out.get? j = some (out.getD j 0) := by
        have hjo : j < out.length := by
          rw [hlen]
          simp only [List.length_cons]
          omega
        rw [List.getD_eq_getElem?_getD]
        cases hg : out[j]? with
        | none => exact absurd (by simpa using hg) (by omega)
        | some a => simp [hg, List.get?_eq_getElem?]
      have := applyDefaultAux_trigger out haz lgd rng rest 1 0 j hjr (by simpa using htrig)
        (fun i hi => by simpa using hmin i hi)
      simp only [applyDefault, this]
      have hidx : 1 + j - 1 = j := by omega
      rw [hidx, hget]
      simp only [Option.getD_some, List.take_succ_cons, List.cons_append, List.length_cons]
      have h3 : rest.length - j - 1 = rest.length + 1 - j - 2 := by omega
      rw [h3]

/-- Witness for the amended C1 at the counterexample instance: the
first draw triggers at month 1 and the recovery is (1 - lgd) times
entry 0 of the series. -/
theorem C1_applyDefault_amended_witness :
    (applyDefault [(-100 : ℚ), 60, 60] [100, 50, 0] (1 / 2) 0 (fun _ => 0) 0).1 =
      [-100, 100, 0] := by
  have h := (C1_applyDefault_amended [(-100 : ℚ), 60, 60] [100, 50, 0] (1 / 2) 0 (fun _ => 0)
    (by norm_num) (by norm_num) (by norm_num) (by norm_num) (by simp)).2 0 (by simp)
    (by norm_num) (fun i hi => absurd hi (by omega))
  simpa using h

lemma irrExpandLoop_fst_ge (f : ℚ → ℚ) (fLo : ℚ) :
    ∀ (n : ℕ) (hi fHi : ℚ), 10 ≤ hi → 10 ≤ (irrExpandLoop f fLo n hi fHi).1 := by
  intro n
  induction n with
  | zero => intro hi fHi h; exact h
  | succ m ih =>
    intro hi fHi h
    have hgrow : 10 ≤ hi * (3 / 2) := by nlinarith
    by_cases hc : 0 < fLo * fHi
    · by_cases hcap : 1000000 < hi * (3 / 2)
      · simp only [irrExpandLoop, if_pos hc, if_pos hcap]
        exact hgrow
      · simp only [irrExpandLoop, if_pos hc, if_neg hcap]
        exact ih _ _ hgrow
    · simp only [irrExpandLoop, if_neg hc]
      exact h

lemma irrBisect_mem (f : ℚ → ℚ) :
    ∀ (n : ℕ) (lo hi fLo fHi : ℚ), lo ≤ hi →
      lo ≤ irrBisect f n lo hi fLo fHi ∧ irrBisect f n lo hi fLo fHi ≤ hi := by
  intro n
  induction n with
  | zero => intro lo hi fLo fHi h; constructor <;> [skip; skip] <;> simp [irrBisect] <;> linarith
  | succ m ih =>
    intro lo hi fLo fHi h
    have hmid1 : lo ≤ (lo + hi) / 2 := by linarith
    have hmid2 : (lo + hi) / 2 ≤ hi := by linarith
    by_cases habs : |f ((lo + hi) / 2)| < 1 / 1000000000
    · simp only [irrBisect, if_pos habs]
      exact ⟨hmid1, hmid2⟩
    · by_cases hsign : fLo * f ((lo + hi) / 2) ≤ 0
      · simp only [irrBisect, if_neg habs, if_pos hsign]
        have := ih lo ((lo + hi) / 2) fLo (f ((lo + hi) / 2)) hmid1
        exact ⟨this.1, le_trans this.2 hmid2⟩
      · simp only [irrBisect, if_neg habs, if_neg hsign]
        have := ih ((lo + hi) / 2) hi (f ((lo + hi) / 2)) fHi hmid2
        exact ⟨le_trans hmid1 this.1, this.2⟩

/-- Claim C6: irrMonthly returns the undefined marker exactly when
the npv values at the two ends of the bracket expanded from
the pair -0.99 and 10 (by factor 1.5, at most 40 times, stopping past
1e6) still have a strictly positive product, and otherwise it returns,
without any error, a bisection result lying between the lower bracket
end -0.99 and the expanded upper end. -/
theorem C6_irrMonthly_bracketing (cfs : List ℚ) :
    (irrMonthly cfs = none ↔ 0 < npv irrLo cfs * (irrExpand cfs).2) ∧
    (¬ 0 < npv irrLo cfs * (irrExpand cfs).2 →
      ∃ r, irrMonthly cfs = some r ∧ irrLo ≤ r ∧ r ≤ (irrExpand cfs).1) := by
  constructor
  · unfold irrMonthly
    by_cases hc : 0 < npv irrLo cfs * (irrExpand cfs).2 <;> simp [hc]
  · intro hc
    have hhi : (10 : ℚ) ≤ (irrExpand cfs).1 := by
      unfold irrExpand
      exact irrExpandLoop_fst_ge _ _ 40 10 _ le_rfl
    have hlohi : (irrLo : ℚ) ≤ (irrExpand cfs).1 := by
      have : (irrLo : ℚ) ≤ 10 := by norm_num [irrLo]
      linarith
    have hmem := irrBisect_mem (fun r => npv r cfs) 80 irrLo (irrExpand cfs).1
      (npv irrLo cfs) (irrExpand cfs).2 hlohi
    refine ⟨_, ?_, hmem.1, hmem.2⟩
    unfold irrMonthly
    rw [if_neg hc]

lemma irrExpandLoop_snd_const_one (f : ℚ → ℚ) (hf : ∀ x, f x = 1) :
    ∀ (n : ℕ) (hi : ℚ), (irrExpandLoop f 1 n hi 1).2 = 1 := by
  intro n
  induction n with
  | zero => intro hi; rfl
  | succ m ih =>
    intro hi
    have hc : (0 : ℚ) < 1 * 1 := by norm_num
    by_cases hcap : 1000000 < hi * (3 / 2)
    · simp only [irrExpandLoop, if_pos hc, if_pos hcap, hf]
    · simp only [irrExpandLoop, if_pos hc, if_neg hcap, hf, ih]

/-- Witness for C6: the schedule -1, 2 brackets a root at once (the
endpoint values 199 and -9/11 have a negative product), so irrMonthly
returns a value within the bracket, while the all-positive schedule
consisting of the single flow 1 never changes sign, so the expansion
exhausts its cap and irrMonthly is undefined. -/
theorem C6_irrMonthly_bracketing_witness :
    (∃ r, irrMonthly [(-1 : ℚ), 2] = some r ∧ irrLo ≤ r ∧ r ≤ (irrExpand [(-1 : ℚ), 2]).1) ∧
    irrMonthly [(1 : ℚ)] = none := by
  have hnpv : ∀ x : ℚ, npv x [(1 : ℚ)] = 1 := fun x => by simp [npv, npvAux]
  have h2 : (irrExpand [(1 : ℚ)]).2 = 1 := by
    unfold irrExpand
    rw [hnpv, hnpv]
    exact irrExpandLoop_snd_const_one _ hnpv 40 10
  refine ⟨(C6_irrMonthly_bracketing [(-1 : ℚ), 2]).2
      (by norm_num [irrExpand, irrExpandLoop, npv, npvAux, irrLo]),
    (C6_irrMonthly_bracketing [(1 : ℚ)]).1.mpr ?_⟩
  rw [hnpv, h2]
  norm_num

lemma le_dpbAux (r : ℚ) : ∀ (l : List ℚ) (t : ℕ) (c : ℚ), (t : ℕ∞) ≤ dpbAux r l t c := by
  intro l
  induction l with
  | nil => intro t c; exact le_top
  | cons a l ih =>
    intro t c
    by_cases h : 0 ≤ c + a / (1 + r) ^ t
    · simp [dpbAux, h]
    · simp only [dpbAux, if_neg h]
      exact le_trans (by exact_mod_cast Nat.le_succ t) (ih (t + 1) _)

lemma dpbAux_mono (r1 r2 : ℚ) (hr1 : -1 < r1) (hr12 : r1 ≤ r2) :
    ∀ (l : List ℚ) (t : ℕ) (c1 c2 : ℚ), c1 ≤ 0 →
      ((1 + r1) / (1 + r2)) * c2 ≤ ((1 + r1) / (1 + r2)) ^ t * c1 →
      dpbAux r1 l t c1 ≤ dpbAux r2 l t c2 := by
  have h1p : (0 : ℚ) < 1 + r1 := by linarith
  have h2p : (0 : ℚ) < 1 + r2 := by linarith
  have hrp : (0 : ℚ) < (1 + r1) / (1 + r2) := div_pos h1p h2p
  have hr1le : (1 + r1) / (1 + r2) ≤ 1 := (div_le_one h2p).mpr (by linarith)
  intro l
  induction l with
  | nil => intro t c1 c2 _ _; exact le_top
  | cons a l ih =>
    intro t c1 c2 hc1 hinv
    have hρt : (0 : ℚ) < ((1 + r1) / (1 + r2)) ^ t := pow_pos hrp t
    have hd2 : a / (1 + r2) ^ t = ((1 + r1) / (1 + r2)) ^ t * (a / (1 + r1) ^ t) := by
      rw [div_pow]
      field_simp
      ring
    have hstep : ((1 + r1) / (1 + r2)) * (c2 + ((1 + r1) / (1 + r2)) ^ t * (a / (1 + r1) ^ t)) ≤
        ((1 + r1) / (1 + r2)) ^ (t + 1) * (c1 + a / (1 + r1) ^ t) := by
      have hts : ((1 + r1) / (1 + r2)) ^ t * c1 * (1 - (1 + r1) / (1 + r2)) ≤ 0 :=
        mul_nonpos_of_nonpos_of_nonneg
          (mul_nonpos_of_nonneg_of_nonpos (le_of_lt hρt) hc1) (by linarith)
      rw [pow_succ]
      nlinarith [hinv, hts]
    by_cases h1c : 0 ≤ c1 + a / (1 + r1) ^ t
    · simp only [dpbAux, if_pos h1c]
      exact le_dpbAux r2 (a :: l) t c2
    · have hc1n : c1 + a / (1 + r1) ^ t < 0 := lt_of_not_le (fun hcon => h1c hcon)
      have h2c : ¬ 0 ≤ c2 + a / (1 + r2) ^ t := by
        rw [hd2]
        intro hcon
        have hL : 0 ≤ ((1 + r1) / (1 + r2)) *
            (c2 + ((1 + r1) / (1 + r2)) ^ t * (a / (1 + r1) ^ t)) :=
          mul_nonneg (le_of_lt hrp) hcon
        have hR : ((1 + r1) / (1 + r2)) ^ (t + 1) * (c1 + a / (1 + r1) ^ t) < 0 :=
          mul_neg_of_pos_of_neg (pow_pos hrp (t + 1)) hc1n
        linarith
      simp only [dpbAux, if_neg h1c, if_neg h2c]
      have hrec := ih (t + 1) (c1 + a / (1 + r1) ^ t) (c2 + a / (1 + r2) ^ t)
        (le_of_lt hc1n) (by rw [hd2]; exact hstep)
      exact hrec

/-- Claim C7: with the cash flows fixed and two monthly rates both
above -1, raising the rate never makes the discounted payback month
smaller; the never-recovers sentinel is the top element and exceeds
every month index. -/
theorem C7_discountedPayback_monotone (cfs : List ℚ) (r1 r2 : ℚ) (h1 : -1 < r1) (h2 : -1 < r2)
    (h12 : r1 ≤ r2) : discountedPayback r1 cfs ≤ discountedPayback r2 cfs := by
  unfold discountedPayback
  exact dpbAux_mono r1 r2 h1 h12 cfs 0 0 0 le_rfl (by simp)

/-- Witness for C7 at the schedule -1, 2 and the rates 0 and 1. -/
theorem C7_discountedPayback_monotone_witness :
    discountedPayback (0 : ℚ) [-1, 2] ≤ discountedPayback (1 : ℚ) [-1, 2] :=
  C7_discountedPayback_monotone [-1, 2] 0 1 (by norm_num) (by norm_num) (by norm_num)

lemma applyDelay_nonpos_prob (cfs : List α) (dp : α) (dm : ℕ) (rng : ℕ → α) (k : ℕ)
    (h : dp ≤ 0) : applyDelay cfs dp dm rng k = (cfs, k) := by
  unfold applyDelay
  rw [if_pos (Or.inr h)]

lemma applyDefault_zero_hazard (cfs out : List α) (lgd : α) (rng : ℕ → α) (k : ℕ)
    (hrng : ∀ n, 0 ≤ rng n) : (applyDefault cfs out 0 lgd rng k).1 = cfs := by
  cases cfs with
  | nil => rfl
  | cons c0 rest =>
    have := applyDefaultAux_no_trigger out 0 lgd rng rest 1 k
      (fun i _ => not_lt.2 (hrng (k + i)))
    simp [applyDefault, this]

lemma mcLoop_zero_risk (discM lgd : α) (dm : ℕ) (baseCF out : List α) (rng : ℕ → α)
    (hrng : ∀ n, 0 ≤ rng n) :
    ∀ (n k : ℕ), (mcLoop discM 0 lgd 0 dm baseCF out rng n k).1 =
      List.replicate n (npv discM baseCF) := by
  intro n
  induction n with
  | zero => intro k; rfl
  | succ m ih =>
    intro k
    simp only [mcLoop, applyDelay_nonpos_prob baseCF 0 dm rng k le_rfl,
      applyDefault_zero_hazard baseCF out lgd rng k hrng, List.replicate_succ]
    exact congrArg _ (ih _)

lemma countP_replicate (f : α → Bool) (b : α) :
    ∀ n : ℕ, (List.replicate n b).countP f = if f b then n else 0 := by
  intro n
  induction n with
  | zero => simp
  | succ m ih =>
    by_cases hf : f b <;> simp [List.replicate_succ, List.countP_cons, ih, hf]

lemma mulberryDraw_nonneg (seed n : ℕ) : (0 : α) ≤ mulberryDraw seed n := by
  unfold mulberryDraw
  positivity

lemma seededRng_nonneg (seed : Option String) (extRng : ℕ → α) (hext : ∀ n, 0 ≤ extRng n) :
    ∀ n, 0 ≤ seededRng seed extRng n := by
  intro n
  cases seed with
  | none => exact hext n
  | some s =>
    show 0 ≤ (if jsTrim s ≠ "" then fun m => mulberryDraw (parseSeedNumber s) m else extRng) n
    by_cases hs : jsTrim s ≠ ""
    · rw [if_pos hs]
      exact mulberryDraw_nonneg _ n
    · rw [if_neg hs]
      exact hext n

lemma simulateGen_iterations_zero [FloorRing α] (root12 : α → α) (p : Params α) (r : ℕ → α)
    (hz : p.iterations = 0) :
    (simulateGen root12 p r).npvs = [] ∧ (simulateGen root12 p r).pNeg = none ∧
      (simulateGen root12 p r).p5 = none ∧ (simulateGen root12 p r).p50 = none ∧
      (simulateGen root12 p r).p95 = none := by
  have hsample : mcSample root12 p r = [] := by
    unfold mcSample
    rw [hz]
    rfl
  refine ⟨?_, ?_, ?_, ?_, ?_⟩ <;>
    simp [simulateGen, hz, hsample, percentile]

/-- Claim C2: when the seed field is present and nonempty after
trimming, the Monte Carlo results of simulateCreditDecision do not
depend on the ambient nondeterministic stream: two runs with
identical parameters give the same NPV sample entry by entry, the
same probability of negative NPV and the same three percentiles. -/
theorem C2_seed_determinism (p : Params ℝ) (r1 r2 : ℕ → ℝ)
    (hseed : ∃ s, p.seed = some s ∧ jsTrim s ≠ "") :
    (simulateCreditDecision p r1).npvs = (simulateCreditDecision p r2).npvs ∧
    (simulateCreditDecision p r1).pNeg = (simulateCreditDecision p r2).pNeg ∧
    (simulateCreditDecision p r1).p5 = (simulateCreditDecision p r2).p5 ∧
    (simulateCreditDecision p r1).p50 = (simulateCreditDecision p r2).p50 ∧
    (simulateCreditDecision p r1).p95 = (simulateCreditDecision p r2).p95 := by
  obtain ⟨s, hs, hne⟩ := hseed
  have hrng : seededRng p.seed r1 = seededRng p.seed r2 := by
    rw [hs]
    simp [seededRng, hne]
  have hsample : ∀ root12 : ℝ → ℝ, mcSample root12 p r1 = mcSample root12 p r2 := by
    intro root12
    unfold mcSample
    rw [hrng]
  refine ⟨?_, ?_, ?_, ?_, ?_⟩ <;>
    simp [simulateCreditDecision, simulateGen, hsample]

/-- Witness for C2 with the concrete seed text 42 and two different
ambient streams. -/
theorem C2_seed_determinism_witness :
    (simulateCreditDecision (Params.mk 100000 12 12 AmortType.PRICE 0 12 2 45 10 2 500
          (some "42")) (fun _ => 0)).npvs =
      (simulateCreditDecision (Params.mk 100000 12 12 AmortType.PRICE 0 12 2 45 10 2 500
          (some "42")) (fun _ => 1 / 2)).npvs :=
  (C2_seed_determinism _ (fun _ => 0) (fun _ => 1 / 2) ⟨"42", rfl, by decide⟩).1

/-- Claim C3 counterexample: with zero iterations configured,
simulateCreditDecision does not reject the configuration and performs
no precondition check; it returns a normally produced result record
whose sample is empty and whose probability and percentile fields
are the NaN marker. -/
theorem C3_no_precondition_check_counterexample :
    (simulateCreditDecision (Params.mk 100000 12 12 AmortType.PRICE 0 12 2 45 10 2 0
        (some "1")) (fun _ => 0)).npvs = [] ∧
    (simulateCreditDecision (Params.mk 100000 12 12 AmortType.PRICE 0 12 2 45 10 2 0
        (some "1")) (fun _ => 0)).pNeg = none ∧
    (simulateCreditDecision (Params.mk 100000 12 12 AmortType.PRICE 0 12 2 45 10 2 0
        (some "1")) (fun _ => 0)).p50 = none := by
  have h := simulateGen_iterations_zero (fun x : ℝ => x ^ ((1 : ℝ) / 12))
    (Params.mk 100000 12 12 AmortType.PRICE 0 12 2 45 10 2 0 (some "1")) (fun _ => 0) rfl
  exact ⟨h.1, h.2.1, h.2.2.2.1⟩

/-- Claim C3 amended: with fewer than one iteration the Monte Carlo
loop body never runs and simulateCreditDecision returns normally a
result whose NPV sample is empty and whose probability of negative
NPV and percentiles are all the NaN marker; no precondition check
rejects the configuration. -/
theorem C3_zero_iterations_degenerate (p : Params ℝ) (r : ℕ → ℝ) (hz : p.iterations = 0) :
    (simulateCreditDecision p r).npvs = [] ∧ (simulateCreditDecision p r).pNeg = none ∧
      (simulateCreditDecision p r).p5 = none ∧ (simulateCreditDecision p r).p50 = none ∧
      (simulateCreditDecision p r).p95 = none :=
  simulateGen_iterations_zero (fun x : ℝ => x ^ ((1 : ℝ) / 12)) p r hz

/-- Witness for the amended C3 at a concrete zero-iteration input. -/
theorem C3_zero_iterations_degenerate_witness :
    (simulateCreditDecision (Params.mk 50000 6 10 AmortType.SAC 1 8 3 40 5 1 0 none)
        (fun _ => 0)).npvs = [] ∧
    (simulateCreditDecision (Params.mk 50000 6 10 AmortType.SAC 1 8 3 40 5 1 0 none)
        (fun _ => 0)).pNeg = none ∧
    (simulateCreditDecision (Params.mk 50000 6 10 AmortType.SAC 1 8 3 40 5 1 0 none)
        (fun _ => 0)).p5 = none ∧
    (simulateCreditDecision (Params.mk 50000 6 10 AmortType.SAC 1 8 3 40 5 1 0 none)
        (fun _ => 0)).p50 = none ∧
    (simulateCreditDecision (Params.mk 50000 6 10 AmortType.SAC 1 8 3 40 5 1 0 none)
        (fun _ => 0)).p95 = none :=
  C3_zero_iterations_degenerate (Params.mk 50000 6 10 AmortType.SAC 1 8 3 40 5 1 0 none)
    (fun _ => 0) rfl

/-- Claim C4: with annual PD zero, delay probability zero and at
least one iteration, every entry of the NPV sample equals the base
NPV exactly, and the probability of negative NPV is one when the base
NPV is strictly negative and zero otherwise. -/
theorem C4_degenerate_risk (p : Params ℝ) (extRng : ℕ → ℝ) (hpd : p.pdAnnual = 0)
    (hdel : p.delayProbPct = 0) (hit : 1 ≤ p.iterations) (hext : ∀ n, 0 ≤ extRng n) :
    (∀ v ∈ (simulateCreditDecision p extRng).npvs,
      v = (simulateCreditDecision p extRng).baseNpv) ∧
    ((simulateCreditDecision p extRng).baseNpv < 0 →
      (simulateCreditDecision p extRng).pNeg = some 1) ∧
    (0 ≤ (simulateCreditDecision p extRng).baseNpv →
      (simulateCreditDecision p extRng).pNeg = some 0) := by
  have hclamp0 : ∀ x : ℝ, x = 0 → clamp (x / 100) 0 1 = 0 := by
    intro x hx
    rw [hx]
    norm_num [clamp]
  have hpdM : pdMonthlyOf (fun x : ℝ => x ^ ((1 : ℝ) / 12)) p = 0 := by
    unfold pdMonthlyOf
    rw [hclamp0 _ hpd]
    norm_num
  have hdp : clamp (p.delayProbPct / 100) 0 1 = 0 := hclamp0 _ hdel
  have hrng := seededRng_nonneg p.seed extRng hext
  have hsample : mcSample (fun x : ℝ => x ^ ((1 : ℝ) / 12)) p extRng =
      List.replicate p.iterations
        (npv (discMonthlyOf (fun x : ℝ => x ^ ((1 : ℝ) / 12)) p)
          (baseScheduleOf (fun x : ℝ => x ^ ((1 : ℝ) / 12)) p).cashflows) := by
    unfold mcSample
    rw [hpdM, hdp]
    exact mcLoop_zero_risk _ _ _ _ _ _ hrng p.iterations 0
  have hiter0 : p.iterations ≠ 0 := by omega
  have hcast : ((p.iterations : ℝ)) ≠ 0 := by exact_mod_cast hiter0
  refine ⟨?_, ?_, ?_⟩
  · intro v hv
    simp only [simulateCreditDecision, simulateGen, hsample] at hv ⊢
    exact List.eq_of_mem_replicate hv
  · intro hneg
    simp only [simulateCreditDecision, simulateGen, hsample] at hneg ⊢
    rw [if_neg hiter0, countP_replicate]
    simp only [decide_eq_true_eq, if_pos hneg]
    rw [div_self hcast]
  · intro hnn
    simp only [simulateCreditDecision, simulateGen, hsample] at hnn ⊢
    rw [if_neg hiter0, countP_replicate]
    simp only [decide_eq_true_eq, if_neg (not_lt.2 hnn)]
    simp

/-- Witness for C4 at concrete degenerate risk parameters. -/
theorem C4_degenerate_risk_witness :
    (∀ v ∈ (simulateCreditDecision (Params.mk 100 2 0 AmortType.SAC 0 0 0 0 0 0 3 none)
        (fun _ => 0)).npvs,
      v = (simulateCreditDecision (Params.mk 100 2 0 AmortType.SAC 0 0 0 0 0 0 3 none)
        (fun _ => 0)).baseNpv) ∧
    ((simulateCreditDecision (Params.mk 100 2 0 AmortType.SAC 0 0 0 0 0 0 3 none)
        (fun _ => 0)).baseNpv < 0 →
      (simulateCreditDecision (Params.mk 100 2 0 AmortType.SAC 0 0 0 0 0 0 3 none)
        (fun _ => 0)).pNeg = some 1) ∧
    (0 ≤ (simulateCreditDecision (Params.mk 100 2 0 AmortType.SAC 0 0 0 0 0 0 3 none)
        (fun _ => 0)).baseNpv →
      (simulateCreditDecision (Params.mk 100 2 0 AmortType.SAC 0 0 0 0 0 0 3 none)
        (fun _ => 0)).pNeg = some 0) :=
  C4_degenerate_risk (Params.mk 100 2 0 AmortType.SAC 0 0 0 0 0 0 3 none) (fun _ => 0) rfl rfl
    (by decide) (fun n => le_refl 0)

end Edro
